import Mathlib

/-!
Shallow embedding of `src/core/Files.cc` (sorbet's `core::File` and friends).
Source text, paths and prefixes are modelled as `List Char` (UTF-8-agnostic
byte sequences with ASCII-only relevant characters); `vector<int>` line-break
tables as `List Int`; fallible operations (`ENFORCE` failures) as `Option`.
A `shared_ptr<std::vector<int>>` is modelled as an optional address into an
explicit heap of built line-break tables, so that pointer sharing is visible.
-/

namespace SorbetCore

/-- `sorbet::core::StrictLevel` (the members used by Files.cc). -/
inductive StrictLevel where
  | None
  | Ignore
  | False
  | True
  | Strict
  | Strong
  | Autogenerated
  | Stdlib
deriving DecidableEq, Repr

/-- `sorbet::core::File::Type` (named `FileType` because `Type` is reserved in Lean). -/
inductive FileType where
  | Normal
  | Payload
  | PayloadGeneration
  | Package
  | TombStone
  | NotYetRead
deriving DecidableEq, Repr

/-- The externally-defined fingerprint artifact (`core::FileHash`); opaque here. -/
abbrev FileHash := Nat

/-- `findLineBreaks`'s loop: `i` is the 0-based index of the previously
consumed character (initially `-1`); a `'\n'` at index `i+1` pushes `i+1`;
after the loop the value `i+1 == size` is pushed. -/
def findLineBreaksAux : List Char → Int → List Int
  | [], i => [i + 1]
  | c :: cs, i =>
      if c = '\n' then (i + 1) :: findLineBreaksAux cs (i + 1)
      else findLineBreaksAux cs (i + 1)

/-- `findLineBreaks` of Files.cc: `[-1]`, then the newline offsets, then `size`. -/
def findLineBreaks (s : List Char) : List Int :=
  -1 :: findLineBreaksAux s (-1)

/-- The backward walk of `File::fileSigil`: from the found occurrence at `i`,
`--comment_start` then continue while the character is `' '` and the index is
positive; result is the index examined last (0 when `i = 0`). -/
def walkBack (s : List Char) : Nat → Nat
  | 0 => 0
  | j + 1 => if s.getD j ' ' = ' ' then walkBack s j else j

/-- Length of the maximal run of `' '` at the head of a list. -/
def spacesRun : List Char → Nat
  | [] => 0
  | c :: cs => if c = ' ' then spacesRun cs + 1 else 0

/-- `while (start < source.size() && source[start] == ' ') ++start;` -/
def skipSpaces (s : List Char) (i : Nat) : Nat :=
  i + spacesRun (s.drop i)

/-- Length of the maximal run of characters that are neither `' '` nor `'\n'`. -/
def tokenRun : List Char → Nat
  | [] => 0
  | c :: cs => if c ≠ ' ' ∧ c ≠ '\n' then tokenRun cs + 1 else 0

/-- `while (end < source.size() && source[end] != ' ' && source[end] != '\n') ++end;` -/
def scanTokenEnd (s : List Char) (e : Nat) : Nat :=
  e + tokenRun (s.drop e)

/-- `string_view::find(pat)`: index of the first occurrence of `pat`, if any. -/
def strFind (pat : List Char) : List Char → Option Nat
  | [] => if pat.isPrefixOf ([] : List Char) then some 0 else none
  | c :: cs =>
      if pat.isPrefixOf (c :: cs) then some 0
      else (strFind pat cs).map (· + 1)

/-- `source.find(pat, start)`: first occurrence of `pat` at index `≥ start`. -/
def findFrom (s pat : List Char) (start : Nat) : Option Nat :=
  (strFind pat (s.drop start)).map (· + start)

/-- The if-else chain mapping a captured suffix to a strict level
(`ignore/false/true/strict/strong/autogenerated/__STDLIB_INTERNAL`). -/
def sigilOfSuffix (suffix : List Char) : Option StrictLevel :=
  if suffix = "ignore".toList then some StrictLevel.Ignore
  else if suffix = "false".toList then some StrictLevel.False
  else if suffix = "true".toList then some StrictLevel.True
  else if suffix = "strict".toList then some StrictLevel.Strict
  else if suffix = "strong".toList then some StrictLevel.Strong
  else if suffix = "autogenerated".toList then some StrictLevel.Autogenerated
  else if suffix = "__STDLIB_INTERNAL".toList then some StrictLevel.Stdlib
  else none

/-- The literal `"typed:"` searched for by `File::fileSigil`. -/
def typedColon : List Char := "typed:".toList

/-- The `while (true)` loop of `File::fileSigil`, with explicit fuel (every
iteration strictly increases `start`, so `s.length + 1` fuel is always enough;
`fileSigilLoop_fuel_irrel` below proves fuel-irrelevance). -/
def fileSigilLoop (s : List Char) : Nat → Nat → StrictLevel
  | 0, _ => StrictLevel.None
  | fuel + 1, start =>
    match findFrom s typedColon start with
    | none => StrictLevel.None
    | some pos =>
      if s.getD (walkBack s pos) ' ' ≠ '#' then
        fileSigilLoop s fuel (pos + 1)
      else
        let vstart := skipSpaces s (pos + 6)
        if s.length ≤ vstart then StrictLevel.None
        else
          let vend := scanTokenEnd s (vstart + 1)
          match sigilOfSuffix ((s.drop vstart).take (vend - vstart)) with
          | some lvl => lvl
          | none => fileSigilLoop s fuel vend

/-- `File::fileSigil(source)`. -/
def fileSigil (s : List Char) : StrictLevel :=
  fileSigilLoop s (s.length + 1) 0

/-- The scan restarted from position `start` (same loop, canonical fuel). -/
def sigilFrom (s : List Char) (start : Nat) : StrictLevel :=
  fileSigilLoop s (s.length + 1) start

example : fileSigil "# typed: strict\n".toList = StrictLevel.Strict := by decide
example : fileSigil "#typed: true\n".toList = StrictLevel.True := by decide
example : fileSigil "x = 5 # not a sigil".toList = StrictLevel.None := by decide
example : fileSigil "  # typed: bogus\n# typed: true\n".toList = StrictLevel.True := by decide

/-- `sorbet::core::File`. `lineBreaksRef` models the
`shared_ptr<std::vector<int>> lineBreaks_` member as an optional address into
an explicit heap of built tables (`none` = null pointer, the "not yet built"
state); copying the field copies the address, i.e. shares the pointee, exactly
as copying a `shared_ptr` does. `hash_` models the once-settable
`shared_ptr<const FileHash>`. -/
structure File where
  epoch : Nat
  sourceType : FileType
  path_ : List Char
  source_ : List Char
  originalSigil : StrictLevel
  strictLevel : StrictLevel
  minErrorLevel_ : StrictLevel
  lineBreaksRef : Option Nat
  hash_ : Option FileHash
  cached : Bool
deriving DecidableEq, Repr

/-- The heap that `lineBreaksRef` addresses point into: each cell is one built
`vector<int>` of line breaks. -/
abbrev LineBreaksHeap := List (List Int)

/-- `File::File(path, source, sourceType, epoch)`: runs `fileSigil` once over
the source, storing the result as both `originalSigil` and the initial
`strictLevel`; the line-break cache and the hash start empty.
(`minErrorLevel_` and `cached` take their in-class initializers from
core/Files.h, which is not under src/: `StrictLevel::None` and `false`.) -/
def File.construct (path source : List Char) (sourceType : FileType) (epoch : Nat) : File :=
  { epoch := epoch
    sourceType := sourceType
    path_ := path
    source_ := source
    originalSigil := fileSigil source
    strictLevel := fileSigil source
    minErrorLevel_ := StrictLevel.None
    lineBreaksRef := none
    hash_ := none
    cached := false }

/-- `File::path()`: a plain accessor with no `ENFORCE`; total. -/
def File.path (f : File) : List Char :=
  f.path_

/-- `File::source()`: `ENFORCE`s that the file is neither `TombStone` nor
`NotYetRead` (modelled as `none`), then returns the text. -/
def File.source? (f : File) : Option (List Char) :=
  if f.sourceType = FileType.TombStone then none
  else if f.sourceType = FileType.NotYetRead then none
  else some f.source_

/-- `File::deepCopy`: construct a fresh File from copies of path/source with
the same sourceType and epoch, then copy over the `lineBreaks_` shared
pointer (the address, hence the pointee is shared), `minErrorLevel_` and
`strictLevel`. The hash is not copied: the fresh File's hash is empty. -/
def File.deepCopy (f : File) : File :=
  let ret := File.construct f.path_ f.source_ f.sourceType f.epoch
  { ret with
      lineBreaksRef := f.lineBreaksRef
      minErrorLevel_ := f.minErrorLevel_
      strictLevel := f.strictLevel }

/-- `File::setFileHash`: installs the hash only when the current hash is
null; otherwise the call leaves the File unchanged. -/
def File.setFileHash (f : File) (h : FileHash) : File :=
  if f.hash_ = none then { f with cached := false, hash_ := some h }
  else f

/-- `File::getFileHash`: returns the (possibly empty) hash reference. -/
def File.getFileHash (f : File) : Option FileHash :=
  f.hash_

/-- `File::lineBreaks()`: `ENFORCE`s readability; returns the installed table
when the pointer is non-null, otherwise builds `findLineBreaks(source_)`,
installs it at a fresh heap address and returns it. Returns the table together
with the updated File and heap. -/
def File.lineBreaks (f : File) (heap : LineBreaksHeap) :
    Option (List Int × File × LineBreaksHeap) :=
  if f.sourceType = FileType.TombStone then none
  else if f.sourceType = FileType.NotYetRead then none
  else
    match f.lineBreaksRef with
    | some r => some (heap.getD r [], f, heap)
    | none =>
        let my := findLineBreaks f.source_
        some (my, { f with lineBreaksRef := some heap.length }, heap ++ [my])

/-- `File::lineCount()`: `lineBreaks().size() - 1`. -/
def File.lineCount (f : File) (heap : LineBreaksHeap) : Option Nat :=
  (File.lineBreaks f heap).map (fun x => x.1.length - 1)

/-- `File::getLine(i)`: fetch the line-break table, `ENFORCE` that
`i < lineBreaks.size()` and `i > 0`, then return
`source().substr(lineBreaks[i-1]+1, lineBreaks[i] - (lineBreaks[i-1]+1))`. -/
def File.getLine (f : File) (heap : LineBreaksHeap) (i : Nat) : Option (List Char) :=
  match File.lineBreaks f heap with
  | none => none
  | some (lb, _, _) =>
      if i < lb.length ∧ 0 < i then
        let start := lb.getD (i - 1) 0 + 1
        let stop := lb.getD i 0
        some ((f.source_.drop start.toNat).take (stop - start).toNat)
      else none

/-- `File::isStdlib()`: re-scans `source()` (with its `ENFORCE`s) and compares
the sigil with `StrictLevel::Stdlib`; it does not consult `strictLevel`. -/
def File.isStdlib (f : File) : Option Bool :=
  (File.source? f).map (fun src => fileSigil src = StrictLevel.Stdlib)

/-- Validity of a File's line-break pointer with respect to the heap: a
non-null pointer addresses a cell holding exactly the table built from the
File's (immutable) source — the invariant the lazy CAS install maintains. -/
def lineBreaksInv (f : File) (heap : LineBreaksHeap) : Prop :=
  ∀ r, f.lineBreaksRef = some r → heap.getD r [] = findLineBreaks f.source_

/-- Modelled from the spec: the external registry ("a registry object,
indexable by a 0-based integer id, returning a File reference, and exposing
the current count of allocated slots"); `core::GlobalState` is not under
src/. A slot holds `none` when unpopulated (a null `shared_ptr<File>`). -/
structure GlobalState where
  files : List (Option File)

/-- Modelled from the spec: `GlobalState::filesUsed()`, the current count of
allocated slots, used by the FileRef bounds checks. -/
def GlobalState.filesUsed (gs : GlobalState) : Nat :=
  gs.files.length

/-- `sorbet::core::FileRef`: an opaque integer id. -/
structure FileRef where
  id : Nat
deriving DecidableEq, Repr

/-- `FileRef::data(gs)`: `ENFORCE`s that the slot is populated and that its
sourceType is neither `TombStone` nor `NotYetRead` (out-of-range indexing
also fails); returns the File. -/
def FileRef.data (fr : FileRef) (gs : GlobalState) : Option File :=
  match gs.files.get? fr.id with
  | some (some f) =>
      if f.sourceType = FileType.TombStone then none
      else if f.sourceType = FileType.NotYetRead then none
      else some f
  | _ => none

/-- `FileRef::dataAllowingUnsafe(gs)`: only `ENFORCE(_id < gs.filesUsed())`;
the slot's content (possibly unpopulated, possibly a tombstone) is returned
as-is. -/
def FileRef.dataAllowingUnsafe (fr : FileRef) (gs : GlobalState) : Option (Option File) :=
  gs.files.get? fr.id

/-- `EXTERNAL_PREFIX` from Files.cc. -/
def EXTERNAL_PREFIX : List Char :=
  "external/com_stripe_ruby_typer/".toList

/-- Modelled from the spec: `URL_PREFIX` is declared in core/Files.h, which is
not under src/; the spec describes it only as "a fixed URL-style prefix"
consumed verbatim. Its concrete value is the upstream header's. -/
def URL_PREFIX : List Char :=
  "https://github.com/sorbet/sorbet/tree/master/".toList

/-- `File::censorFilePathForSnapshotTests(orig)`. -/
def censorFilePathForSnapshotTests (orig : List Char) : List Char :=
  let result :=
    if EXTERNAL_PREFIX.isPrefixOf orig then orig.drop EXTERNAL_PREFIX.length else orig
  let result :=
    if URL_PREFIX.isPrefixOf result then
      let r := result.drop URL_PREFIX.length
      if EXTERNAL_PREFIX.isPrefixOf r then r.drop EXTERNAL_PREFIX.length else r
    else result
  if URL_PREFIX.isPrefixOf orig then URL_PREFIX ++ result else result

example :
    censorFilePathForSnapshotTests "external/com_stripe_ruby_typer/foo.rb".toList
      = "foo.rb".toList := by decide

/-! ### Lemmas about the sigil scanner -/

lemma strFind_nil_of_ne (pat : List Char) (hp : pat ≠ []) :
    strFind pat [] = none := by
  match pat, hp with
  | a :: as, _ => simp [strFind, List.isPrefixOf]

lemma strFind_some_bound (pat : List Char) (hp : pat ≠ []) :
    ∀ s k, strFind pat s = some k → k + pat.length ≤ s.length := by
  intro s
  induction s with
  | nil =>
      intro k hk
      rw [strFind_nil_of_ne pat hp] at hk
      exact absurd hk (by simp)
  | cons c cs ih =>
      intro k hk
      rw [strFind] at hk
      by_cases hpre : pat.isPrefixOf (c :: cs)
      · rw [if_pos hpre] at hk
        obtain rfl : (0 : Nat) = k := Option.some.inj hk
        have := ( List.isPrefixOf_iff_prefix.mp hpre).length_le
        simpa using this
      · rw [if_neg hpre] at hk
        rcases Option.map_eq_some'.mp hk with ⟨k', hk', rfl⟩
        have := ih k' hk'
        simp only [List.length_cons]
        omega

lemma findFrom_some_bound (s pat : List Char) (hp : pat ≠ []) (start pos : Nat)
    (h : findFrom s pat start = some pos) :
    start ≤ pos ∧ pos + pat.length ≤ s.length := by
  rcases Option.map_eq_some'.mp h with ⟨k, hk, rfl⟩
  have hb := strFind_some_bound pat hp _ k hk
  rw [List.length_drop] at hb
  have hsl : start ≤ s.length := by
    by_contra hlt
    have hnil : s.drop start = [] := List.drop_eq_nil_of_le (by omega)
    rw [hnil, strFind_nil_of_ne pat hp] at hk
    exact absurd hk (by simp)
  constructor
  · omega
  · omega

lemma findFrom_none_of_ge (s pat : List Char) (hp : pat ≠ []) (start : Nat)
    (h : s.length ≤ start) : findFrom s pat start = none := by
  unfold findFrom
  rw [List.drop_eq_nil_of_le h, strFind_nil_of_ne pat hp]
  rfl

lemma skipSpaces_ge (s : List Char) (i : Nat) : i ≤ skipSpaces s i :=
  Nat.le_add_right _ _

lemma scanTokenEnd_ge (s : List Char) (e : Nat) : e ≤ scanTokenEnd s e :=
  Nat.le_add_right _ _

lemma typedColon_ne_nil : typedColon ≠ [] := by decide

/-- The result of the scan loop does not depend on the fuel, as long as the
fuel covers the remaining distance to the end of the text (every iteration
strictly advances `start`). -/
lemma fileSigilLoop_fuel_irrel (s : List Char) :
    ∀ f₁ f₂ start, s.length + 1 - start ≤ f₁ → s.length + 1 - start ≤ f₂ →
      fileSigilLoop s f₁ start = fileSigilLoop s f₂ start := by
  intro f₁
  induction f₁ with
  | zero =>
      intro f₂ start h1 _h2
      have hf : findFrom s typedColon start = none :=
        findFrom_none_of_ge s _ typedColon_ne_nil start (by omega)
      cases f₂ with
      | zero => rfl
      | succ b => simp [fileSigilLoop, hf]
  | succ a ih =>
      intro f₂ start h1 h2
      cases f₂ with
      | zero =>
          have hf : findFrom s typedColon start = none :=
            findFrom_none_of_ge s _ typedColon_ne_nil start (by omega)
          simp [fileSigilLoop, hf]
      | succ b =>
          simp only [fileSigilLoop]
          cases hf : findFrom s typedColon start with
          | none => rfl
          | some pos =>
              obtain ⟨hsp, hpl⟩ :=
                findFrom_some_bound s _ typedColon_ne_nil start pos hf
              have hpl6 : pos + 6 ≤ s.length := by
                have h6 : typedColon.length = 6 := rfl
                omega
              by_cases hanchor : s.getD (walkBack s pos) ' ' = '#'
              · simp only [hanchor, ne_eq, not_true_eq_false, if_false]
                by_cases hend : s.length ≤ skipSpaces s (pos + 6)
                · simp only [hend, if_true]
                · simp only [hend, if_false]
                  have hv1 : pos + 6 ≤ skipSpaces s (pos + 6) := skipSpaces_ge s _
                  have hv2 : skipSpaces s (pos + 6) + 1
                      ≤ scanTokenEnd s (skipSpaces s (pos + 6) + 1) := scanTokenEnd_ge s _
                  cases sigilOfSuffix ((s.drop (skipSpaces s (pos + 6))).take
                      (scanTokenEnd s (skipSpaces s (pos + 6) + 1) - skipSpaces s (pos + 6))) with
                  | some lvl => rfl
                  | none => exact ih b _ (by omega) (by omega)
              · simp only [hanchor, ne_eq, not_false_eq_true, if_true]
                exact ih b _ (by omega) (by omega)

lemma sigilFrom_eq_loop (s : List Char) (start fuel : Nat)
    (h : s.length + 1 - start ≤ fuel) :
    sigilFrom s start = fileSigilLoop s fuel start :=
  fileSigilLoop_fuel_irrel s _ _ start (by omega) h

lemma fileSigil_eq_sigilFrom_zero (s : List Char) : fileSigil s = sigilFrom s 0 := rfl

/-- One unfolding of the scan from `start`, in the case where the occurrence
at `pos` is `'#'`-anchored but its captured value is unrecognized: the scan
continues from the first position after the captured span. -/
lemma sigilFrom_resume (s : List Char) (start pos : Nat)
    (hf : findFrom s typedColon start = some pos)
    (hanchor : s.getD (walkBack s pos) ' ' = '#')
    (hin : skipSpaces s (pos + 6) < s.length)
    (hsuf : sigilOfSuffix ((s.drop (skipSpaces s (pos + 6))).take
        (scanTokenEnd s (skipSpaces s (pos + 6) + 1) - skipSpaces s (pos + 6))) = none) :
    sigilFrom s start = sigilFrom s (scanTokenEnd s (skipSpaces s (pos + 6) + 1)) := by
  obtain ⟨hsp, hpl⟩ := findFrom_some_bound s _ typedColon_ne_nil start pos hf
  have hv2 : skipSpaces s (pos + 6) + 1
      ≤ scanTokenEnd s (skipSpaces s (pos + 6) + 1) := scanTokenEnd_ge s _
  have hstep : sigilFrom s start
      = fileSigilLoop s s.length (scanTokenEnd s (skipSpaces s (pos + 6) + 1)) := by
    show fileSigilLoop s (s.length + 1) start = _
    simp only [fileSigilLoop, hf, hanchor, ne_eq, not_true_eq_false, if_false,
      Nat.not_le_of_lt hin, hsuf]
  rw [hstep]
  exact (sigilFrom_eq_loop s _ s.length (by omega)).symm

/-- One unfolding of the scan from `start`, in the case where the occurrence
at `pos` is `'#'`-anchored and its captured value maps to a level: the scan
returns that level. -/
lemma sigilFrom_success (s : List Char) (start pos : Nat) (lvl : StrictLevel)
    (hf : findFrom s typedColon start = some pos)
    (hanchor : s.getD (walkBack s pos) ' ' = '#')
    (hin : skipSpaces s (pos + 6) < s.length)
    (hsuf : sigilOfSuffix ((s.drop (skipSpaces s (pos + 6))).take
        (scanTokenEnd s (skipSpaces s (pos + 6) + 1) - skipSpaces s (pos + 6))) = some lvl) :
    sigilFrom s start = lvl := by
  show fileSigilLoop s (s.length + 1) start = lvl
  simp only [fileSigilLoop, hf, hanchor, ne_eq, not_true_eq_false, if_false,
    Nat.not_le_of_lt hin, hsuf]

/-- When no further occurrence of `"typed:"` exists, the scan returns `None`. -/
lemma sigilFrom_none (s : List Char) (start : Nat)
    (hf : findFrom s typedColon start = none) :
    sigilFrom s start = StrictLevel.None := by
  show fileSigilLoop s (s.length + 1) start = _
  simp only [fileSigilLoop, hf]

/-! ### Lemmas about the line-break index -/

/-- Full characterization of the scan loop of `findLineBreaks`: starting with
previous index `i`, it produces the positions (shifted by `i + 1`) of the
newline characters, followed by the final sentinel `i + 1 + length`. -/
lemma findLineBreaksAux_eq (s : List Char) : ∀ i : Int,
    findLineBreaksAux s i =
      ((List.range s.length).filter (fun k => s.getD k ' ' == '\n')).map
          (fun (k : Nat) => i + 1 + (k : Int))
        ++ [i + 1 + (s.length : Int)] := by
  induction s with
  | nil => intro i; simp [findLineBreaksAux]
  | cons c cs ih =>
      intro i
      have hfilter : (List.range (c :: cs).length).filter
            (fun k => (c :: cs).getD k ' ' == '\n')
          = (if c == '\n' then [0] else [])
              ++ ((List.range cs.length).filter (fun k => cs.getD k ' ' == '\n')).map
                  (fun k => k + 1) := by
        rw [List.length_cons, List.range_succ_eq_map, List.filter_cons]
        simp only [List.getD_cons_zero, List.filter_map, Function.comp_def,
          List.getD_cons_succ]
        by_cases hc : c = '\n'
        · simp [hc]
        · simp [hc]
      rw [findLineBreaksAux, hfilter]
      simp only [List.map_append, List.map_map]
      have hmap :
          ((List.range cs.length).filter (fun k => cs.getD k ' ' == '\n')).map
              ((fun (k : Nat) => i + 1 + (k : Int)) ∘ fun k => k + 1)
            = ((List.range cs.length).filter (fun k => cs.getD k ' ' == '\n')).map
              (fun (k : Nat) => i + 1 + 1 + (k : Int)) :=
        List.map_congr_left fun a _ => by
          simp only [Function.comp_apply]
          push_cast
          ring
      have hsent : i + 1 + ((c :: cs).length : Int) = i + 1 + 1 + (cs.length : Int) := by
        simp only [List.length_cons]
        push_cast
        ring
      rw [hmap, hsent, ih (i + 1)]
      by_cases hc : c = '\n'
      · simp [hc]
      · simp [hc]

/-- `findLineBreaks` in closed form: sentinel `-1`, the 0-based offsets of the
`'\n'` characters in order, then `length`. -/
lemma findLineBreaks_eq (s : List Char) :
    findLineBreaks s =
      -1 :: (((List.range s.length).filter (fun k => s.getD k ' ' == '\n')).map
          (fun (k : Nat) => (k : Int))
        ++ [(s.length : Int)]) := by
  rw [findLineBreaks, findLineBreaksAux_eq s (-1)]
  have hmap : ((List.range s.length).filter (fun k => s.getD k ' ' == '\n')).map
        (fun (k : Nat) => (-1 : Int) + 1 + (k : Int))
      = ((List.range s.length).filter (fun k => s.getD k ' ' == '\n')).map
        (fun (k : Nat) => (k : Int)) :=
    List.map_congr_left fun a _ => by push_cast; ring
  have hsent : (-1 : Int) + 1 + (s.length : Int) = (s.length : Int) := by ring
  rw [hmap, hsent]

end SorbetCore

namespace SorbetCore

/-! ### Claim theorems -/

/-- C1: `fileSigil` maps a directive's candidate value to a `StrictLevel` via
the exact case-sensitive table
`ignore/false/true/strict/strong/autogenerated/__STDLIB_INTERNAL`, requiring a
`'#'` before `typed:` reached by walking backward over space characters only
(not tabs): `fileSigil "# typed: strict\n" = Strict`;
`fileSigil "#typed: true\n" = True` (no space after `'#'` required);
`fileSigil "x = 5 # not a sigil" = None`. The last two conjuncts check that
tabs are not walked over and that the table is case-sensitive. -/
theorem claim_C1_fileSigil_table :
    fileSigil "# typed: ignore\n".toList = StrictLevel.Ignore
    ∧ fileSigil "# typed: false\n".toList = StrictLevel.False
    ∧ fileSigil "# typed: true\n".toList = StrictLevel.True
    ∧ fileSigil "# typed: strict\n".toList = StrictLevel.Strict
    ∧ fileSigil "# typed: strong\n".toList = StrictLevel.Strong
    ∧ fileSigil "# typed: autogenerated\n".toList = StrictLevel.Autogenerated
    ∧ fileSigil "# typed: __STDLIB_INTERNAL\n".toList = StrictLevel.Stdlib
    ∧ fileSigil "#typed: true\n".toList = StrictLevel.True
    ∧ fileSigil "x = 5 # not a sigil".toList = StrictLevel.None
    ∧ fileSigil "#\ttyped: true\n".toList = StrictLevel.None
    ∧ fileSigil "# typed: True\n".toList = StrictLevel.None := by
  refine ⟨?_, ?_, ?_, ?_, ?_, ?_, ?_, ?_, ?_, ?_, ?_⟩ <;> decide

/-- C2: an unrecognized candidate value at a `'#'`-anchored `typed:`
occurrence is not an error and does not stop the scan: the scan resumes right
after the captured span (second conjunct); the first occurrence whose value
maps to a level wins, returning that level (third conjunct); when no further
occurrence exists the result is `None` (fourth conjunct); and in particular
`fileSigil "  # typed: bogus\n# typed: true\n" = True` (first conjunct).
`sigilFrom s start` is the scan loop entered at position `start`, with
`fileSigil s = sigilFrom s 0` (last conjunct). -/
theorem claim_C2_unrecognized_value_resumes :
    fileSigil "  # typed: bogus\n# typed: true\n".toList = StrictLevel.True
    ∧ (∀ (s : List Char) (start pos : Nat),
        findFrom s typedColon start = some pos →
        s.getD (walkBack s pos) ' ' = '#' →
        skipSpaces s (pos + 6) < s.length →
        sigilOfSuffix ((s.drop (skipSpaces s (pos + 6))).take
            (scanTokenEnd s (skipSpaces s (pos + 6) + 1) - skipSpaces s (pos + 6))) = none →
        sigilFrom s start = sigilFrom s (scanTokenEnd s (skipSpaces s (pos + 6) + 1)))
    ∧ (∀ (s : List Char) (start pos : Nat) (lvl : StrictLevel),
        findFrom s typedColon start = some pos →
        s.getD (walkBack s pos) ' ' = '#' →
        skipSpaces s (pos + 6) < s.length →
        sigilOfSuffix ((s.drop (skipSpaces s (pos + 6))).take
            (scanTokenEnd s (skipSpaces s (pos + 6) + 1) - skipSpaces s (pos + 6))) = some lvl →
        sigilFrom s start = lvl)
    ∧ (∀ (s : List Char) (start : Nat),
        findFrom s typedColon start = none → sigilFrom s start = StrictLevel.None)
    ∧ (∀ s : List Char, fileSigil s = sigilFrom s 0) :=
  ⟨by decide, sigilFrom_resume, sigilFrom_success, sigilFrom_none,
    fileSigil_eq_sigilFrom_zero⟩

/-- Witness for C2: on `"  # typed: bogus\n# typed: true\n"`, the anchored
occurrence at position 4 carries the unrecognized value `bogus`
(span ending at position 16), and the scan from 0 resumes at 16. -/
theorem claim_C2_witness :
    sigilFrom "  # typed: bogus\n# typed: true\n".toList 0
      = sigilFrom "  # typed: bogus\n# typed: true\n".toList 16 :=
  claim_C2_unrecognized_value_resumes.2.1
    "  # typed: bogus\n# typed: true\n".toList 0 4
    (by decide) (by decide) (by decide) (by decide)

lemma lineBreaks_resolved (f : File) (heap : LineBreaksHeap)
    (hts : f.sourceType ≠ FileType.TombStone) (hnr : f.sourceType ≠ FileType.NotYetRead)
    (hinv : lineBreaksInv f heap) :
    ∃ f' heap', File.lineBreaks f heap = some (findLineBreaks f.source_, f', heap') := by
  unfold File.lineBreaks
  rw [if_neg hts, if_neg hnr]
  cases href : f.lineBreaksRef with
  | none => exact ⟨_, _, rfl⟩
  | some r =>
      have h2 := hinv r href
      rw [List.getD_eq_getElem?_getD] at h2
      exact ⟨f, heap, by simp [h2]⟩

lemma filter_range_getD_length (s : List Char) :
    ((List.range s.length).filter (fun k => s.getD k ' ' == '\n')).length
      = s.count '\n' := by
  induction s with
  | nil => simp
  | cons c cs ih =>
      rw [List.length_cons, List.range_succ_eq_map, List.filter_cons]
      simp only [List.getD_cons_zero, List.filter_map, Function.comp_def,
        List.getD_cons_succ]
      by_cases hc : c = '\n'
      · subst hc
        simp only [beq_self_eq_true, if_true, List.length_cons, List.length_map, ih,
          List.count_cons_self]
      · have hcb : (c == '\n') = false := by simp [hc]
        have hc2 : ('\n' : Char) ≠ c := fun h => hc h.symm
        simp only [hcb, Bool.false_eq_true, if_false, List.length_map, ih,
          List.count_cons_of_ne hc2]

/-- C3: for every source text, the line index starts with the sentinel `-1`,
ends with `length source`, its interior entries are exactly the 0-based
offsets of the `'\n'` characters (so their count equals the number of `'\n'`
bytes), the whole sequence is strictly increasing, and
`lineCount() = len(lineIndex) - 1`. -/
theorem claim_C3_lineIndex (s : List Char) :
    (findLineBreaks s).head? = some (-1)
    ∧ (findLineBreaks s).getLast? = some (s.length : Int)
    ∧ ((findLineBreaks s).drop 1).dropLast
        = ((List.range s.length).filter (fun k => s.getD k ' ' == '\n')).map
            (fun (k : Nat) => (k : Int))
    ∧ (((findLineBreaks s).drop 1).dropLast).length = s.count '\n'
    ∧ List.Chain' (· < ·) (findLineBreaks s)
    ∧ (∀ (f : File) (heap : LineBreaksHeap),
        f.source_ = s →
        f.sourceType ≠ FileType.TombStone → f.sourceType ≠ FileType.NotYetRead →
        lineBreaksInv f heap →
        File.lineCount f heap = some ((findLineBreaks s).length - 1)) := by
  refine ⟨?_, ?_, ?_, ?_, ?_, ?_⟩
  · rw [findLineBreaks_eq]; rfl
  · rw [findLineBreaks_eq, ← List.cons_append, List.getLast?_append]
    rfl
  · rw [findLineBreaks_eq]
    simp only [List.drop_one, List.tail_cons, List.dropLast_concat]
  · rw [findLineBreaks_eq]
    simp only [List.drop_one, List.tail_cons, List.dropLast_concat, List.length_map]
    exact filter_range_getD_length s
  · rw [findLineBreaks_eq, List.chain'_iff_pairwise, List.pairwise_cons]
    constructor
    · intro x hx
      rcases List.mem_append.mp hx with hx | hx
      · rcases List.mem_map.mp hx with ⟨k, _, rfl⟩
        omega
      · rcases List.mem_singleton.mp hx with rfl
        omega
    · rw [List.pairwise_append]
      refine ⟨?_, ?_, ?_⟩
      · rw [List.pairwise_map]
        exact ( List.Pairwise.sublist (List.filter_sublist _)
          (List.pairwise_lt_range _)).imp (fun h => by exact_mod_cast h)
      · simp
      · intro x hx y hy
        rcases List.mem_map.mp hx with ⟨k, hk, rfl⟩
        rcases List.mem_singleton.mp hy with rfl
        have : k < s.length := List.mem_range.mp (List.mem_of_mem_filter hk)
        exact_mod_cast this
  · intro f heap hs hts hnr hinv
    obtain ⟨f', heap', h⟩ := lineBreaks_resolved f heap hts hnr hinv
    rw [File.lineCount, h, Option.map_some']
    rw [hs]

/-- Witness for C3's `lineCount` conjunct, at a concrete file with two
newline bytes (hence three lines: `x`, `y` and the empty suffix line). -/
theorem claim_C3_witness :
    File.lineCount
      (File.construct "a.rb".toList "x\ny\n".toList FileType.Normal 0) [] = some 3 := by
  have h := (claim_C3_lineIndex "x\ny\n".toList).2.2.2.2.2
    (File.construct "a.rb".toList "x\ny\n".toList FileType.Normal 0) []
    rfl (by decide) (by decide) (fun r hr => by simp [File.construct] at hr)
  rw [h]
  decide

/-- C4: for every File with readable sourceType (and a valid line-break
cache), `getLine i` with `1 ≤ i < len(lineIndex)` returns exactly the bytes of
the source from offset `lineIndex[i-1] + 1` up to but not including offset
`lineIndex[i]`; any `i` outside that bound fails the `ENFORCE` (modelled as
`none`). -/
theorem claim_C4_getLine (f : File) (heap : LineBreaksHeap) (i : Nat)
    (hts : f.sourceType ≠ FileType.TombStone) (hnr : f.sourceType ≠ FileType.NotYetRead)
    (hinv : lineBreaksInv f heap) :
    (1 ≤ i ∧ i < (findLineBreaks f.source_).length →
      File.getLine f heap i =
        some ((f.source_.drop ((findLineBreaks f.source_).getD (i - 1) 0 + 1).toNat).take
          (((findLineBreaks f.source_).getD i 0
            - ((findLineBreaks f.source_).getD (i - 1) 0 + 1)).toNat)))
    ∧ (¬ (1 ≤ i ∧ i < (findLineBreaks f.source_).length) →
        File.getLine f heap i = none) := by
  obtain ⟨f', heap', h⟩ := lineBreaks_resolved f heap hts hnr hinv
  constructor
  · intro hi
    simp only [File.getLine, h]
    rw [if_pos ⟨hi.2, hi.1⟩]
  · intro hi
    simp only [File.getLine, h]
    rw [if_neg (fun hcon => hi ⟨hcon.2, hcon.1⟩)]

/-- Witness for C4: on the two-line source `"ab\ncd\n"`, line 2 is `"cd"`,
and line 4 is out of range. -/
theorem claim_C4_witness :
    File.getLine
        (File.construct "a.rb".toList "ab\ncd\n".toList FileType.Normal 0) [] 2
      = some "cd".toList
    ∧ File.getLine
        (File.construct "a.rb".toList "ab\ncd\n".toList FileType.Normal 0) [] 4
      = none := by
  constructor
  · have h := (claim_C4_getLine
      (File.construct "a.rb".toList "ab\ncd\n".toList FileType.Normal 0) [] 2
      (by decide) (by decide) (fun r hr => by simp [File.construct] at hr)).1
      (by constructor <;> decide)
    rw [h]
    decide
  · exact (claim_C4_getLine
      (File.construct "a.rb".toList "ab\ncd\n".toList FileType.Normal 0) [] 4
      (by decide) (by decide) (fun r hr => by simp [File.construct] at hr)).2
      (by decide)

/-- C5: the hash field transitions at most once from empty to populated:
a set on a populated hash is a silent no-op (third conjunct), so after
`setFileHash A` then `setFileHash B` starting from an empty hash,
`getFileHash` returns `A` (second conjunct); a set on an empty hash does
populate it (first conjunct). -/
theorem claim_C5_hash_set_once (f : File) (A B : FileHash) :
    (f.hash_ = none → (File.setFileHash f A).hash_ = some A)
    ∧ (f.hash_ = none →
        File.getFileHash (File.setFileHash (File.setFileHash f A) B) = some A)
    ∧ (f.hash_.isSome → File.setFileHash f B = f) := by
  refine ⟨?_, ?_, ?_⟩
  · intro h
    simp [File.setFileHash, h]
  · intro h
    simp [File.setFileHash, h, File.getFileHash]
  · intro h
    have hne : ¬ f.hash_ = none := by
      rw [Option.isSome_iff_ne_none] at h
      exact h
    simp [File.setFileHash, hne]

/-- Witness for C5: on a freshly constructed File, installing hash 1 and then
attempting to install hash 2 leaves hash 1 installed. -/
theorem claim_C5_witness :
    File.getFileHash
        (File.setFileHash (File.setFileHash
          (File.construct "a.rb".toList "x = 1".toList FileType.Normal 0) 1) 2)
      = some 1 :=
  (claim_C5_hash_set_once
    (File.construct "a.rb".toList "x = 1".toList FileType.Normal 0) 1 2).2.1 rfl

/-- C6: for every File with readable sourceType, `deepCopy` yields a File
whose path, source, sourceType, epoch, strictLevel and minErrorLevel equal the
original's, and whose hash is empty even when the original's hash was
populated. -/
theorem claim_C6_deepCopy (f : File)
    (_hts : f.sourceType ≠ FileType.TombStone) (_hnr : f.sourceType ≠ FileType.NotYetRead) :
    (File.deepCopy f).path_ = f.path_
    ∧ (File.deepCopy f).source_ = f.source_
    ∧ (File.deepCopy f).sourceType = f.sourceType
    ∧ (File.deepCopy f).epoch = f.epoch
    ∧ (File.deepCopy f).strictLevel = f.strictLevel
    ∧ (File.deepCopy f).minErrorLevel_ = f.minErrorLevel_
    ∧ (File.deepCopy f).hash_ = none :=
  ⟨rfl, rfl, rfl, rfl, rfl, rfl, rfl⟩

/-- Witness for C6: deep-copying a readable File whose hash is populated
yields a copy with an empty hash. -/
theorem claim_C6_witness :
    (File.deepCopy { File.construct "a.rb".toList "x = 1".toList FileType.Normal 0 with
        hash_ := some 5 }).hash_ = none :=
  (claim_C6_deepCopy
    { File.construct "a.rb".toList "x = 1".toList FileType.Normal 0 with hash_ := some 5 }
    (by decide) (by decide)).2.2.2.2.2.2

/-- A File whose line-break table has been built and installed at heap
address 0 (`lineBreaksRef = some 0` models a non-null
`shared_ptr<vector<int>>` pointing at that cell). -/
def builtLineBreaksFile : File :=
  { epoch := 0
    sourceType := FileType.Normal
    path_ := "a.rb".toList
    source_ := "x = 1\n".toList
    originalSigil := StrictLevel.None
    strictLevel := StrictLevel.None
    minErrorLevel_ := StrictLevel.None
    lineBreaksRef := some 0
    hash_ := none
    cached := false }

/-- Counterexample to C7: `deepCopy` copies the `shared_ptr` to the line-break
vector, so the copy's `lineBreaksRef` is the same heap address (`some 0`) as
the original's — the two Files share the index's underlying storage object,
contradicting "never shares the line index's underlying storage object". -/
theorem claim_C7_counterexample :
    (File.deepCopy builtLineBreaksFile).lineBreaksRef = some 0
    ∧ builtLineBreaksFile.lineBreaksRef = some 0 :=
  ⟨rfl, rfl⟩

/-- C7 as amended: `deepCopy` copies the line-break shared pointer itself
(the address), so the copy references the very same underlying storage as the
original whenever the index has been built; it is a shared reference, not a
value copy of the storage. (The shared table is immutable once installed.) -/
theorem claim_C7_amended (f : File) :
    (File.deepCopy f).lineBreaksRef = f.lineBreaksRef :=
  rfl

/-- A TombStone File (slot whose text must not be read). -/
def tombStoneFile : File :=
  File.construct "a.rb".toList "x = 1".toList FileType.TombStone 0

/-- Counterexample to C8: the claim says calling `path()` on a File whose
sourceType is TombStone fails with an invariant violation, but `File::path()`
performs no `ENFORCE` at all: on a TombStone file it returns the stored path
normally (while `source()` does fail on the same file). -/
theorem claim_C8_counterexample :
    File.path tombStoneFile = "a.rb".toList
    ∧ File.source? tombStoneFile = none :=
  ⟨rfl, rfl⟩

/-- C8 as amended: exactly these programmer-error conditions fail fatally
(`none`), never with a recoverable error value: `source()` (and the line
accessors) on a TombStone/NotYetRead file; out-of-range line access; and
out-of-range FileRef dereference — where the safe accessor additionally fails
on an unpopulated or TombStone/NotYetRead slot while the allow-unsafe variant
performs only the bounds check. `path()`, however, never fails: it returns
the stored path even on TombStone/NotYetRead files. -/
theorem claim_C8_amended :
    (∀ f : File, File.path f = f.path_)
    ∧ (∀ f : File, (File.source? f).isSome
        ↔ (f.sourceType ≠ FileType.TombStone ∧ f.sourceType ≠ FileType.NotYetRead))
    ∧ (∀ (f : File) (heap : LineBreaksHeap) (i : Nat), lineBreaksInv f heap →
        ((File.getLine f heap i).isSome
          ↔ (f.sourceType ≠ FileType.TombStone ∧ f.sourceType ≠ FileType.NotYetRead
              ∧ 0 < i ∧ i < (findLineBreaks f.source_).length)))
    ∧ (∀ (fr : FileRef) (gs : GlobalState),
        (FileRef.data fr gs).isSome
          ↔ (∃ f, gs.files.get? fr.id = some (some f)
              ∧ f.sourceType ≠ FileType.TombStone ∧ f.sourceType ≠ FileType.NotYetRead))
    ∧ (∀ (fr : FileRef) (gs : GlobalState),
        (FileRef.dataAllowingUnsafe fr gs).isSome ↔ fr.id < GlobalState.filesUsed gs) := by
  refine ⟨fun f => rfl, ?_, ?_, ?_, ?_⟩
  · intro f
    by_cases h1 : f.sourceType = FileType.TombStone
    · simp [File.source?, h1]
    · by_cases h2 : f.sourceType = FileType.NotYetRead
      · simp [File.source?, h1, h2]
      · simp [File.source?, h1, h2]
  · intro f heap i hinv
    by_cases h1 : f.sourceType = FileType.TombStone
    · simp [File.getLine, File.lineBreaks, h1]
    · by_cases h2 : f.sourceType = FileType.NotYetRead
      · simp [File.getLine, File.lineBreaks, h1, h2]
      · obtain ⟨f2, heap2, h⟩ := lineBreaks_resolved f heap h1 h2 hinv
        simp only [File.getLine, h]
        by_cases hcond : i < (findLineBreaks f.source_).length ∧ 0 < i
        · rw [if_pos hcond]
          simp [h1, h2, hcond.1, hcond.2]
        · rw [if_neg hcond]
          simp only [Option.isSome_none, Bool.false_eq_true, false_iff]
          intro hcon
          exact hcond ⟨hcon.2.2.2, hcon.2.2.1⟩
  · intro fr gs
    cases hslot : gs.files[fr.id]? with
    | none => simp [FileRef.data, List.get?_eq_getElem?, hslot]
    | some slot =>
        cases slot with
        | none => simp [FileRef.data, List.get?_eq_getElem?, hslot]
        | some f =>
            by_cases h1 : f.sourceType = FileType.TombStone
            · simp [FileRef.data, List.get?_eq_getElem?, hslot, h1]
            · by_cases h2 : f.sourceType = FileType.NotYetRead
              · simp [FileRef.data, List.get?_eq_getElem?, hslot, h1, h2]
              · simp [FileRef.data, List.get?_eq_getElem?, hslot, h1, h2]
  · intro fr gs
    rw [FileRef.dataAllowingUnsafe, List.get?_eq_getElem?]
    constructor
    · intro h
      by_contra hge
      have hlen : gs.files.length ≤ fr.id := by
        simp only [GlobalState.filesUsed] at hge
        omega
      rw [List.getElem?_eq_none hlen] at h
      simp at h
    · intro h
      have hlt : fr.id < gs.files.length := h
      rw [List.getElem?_eq_getElem hlt]
      rfl

/-- Witness for C8's amended statement: on a freshly constructed readable
File, `getLine 0` is an out-of-range line access and fails. -/
theorem claim_C8_witness :
    ¬ (File.getLine (File.construct "a.rb".toList "ab\ncd\n".toList FileType.Normal 0)
        [] 0).isSome = true := by
  have h := claim_C8_amended.2.2.1
    (File.construct "a.rb".toList "ab\ncd\n".toList FileType.Normal 0) [] 0
    (fun r hr => by simp [File.construct] at hr)
  intro hs
  exact absurd (h.mp hs).2.2.1 (by decide)

lemma isPrefixOf_append_self (l t : List Char) : l.isPrefixOf (l ++ t) = true := by
  induction l with
  | nil => simp
  | cons a as ih => simp [List.isPrefixOf_cons₂, ih]

lemma isPrefixOf_cons_ne (a b : Char) (as bs : List Char) (h : ¬ a = b) :
    (a :: as).isPrefixOf (b :: bs) = false := by
  simp [List.isPrefixOf_cons₂, h]

lemma url_not_prefixOf_external_append (s : List Char) :
    URL_PREFIX.isPrefixOf ( EXTERNAL_PREFIX ++ s) = false := by
  have hu : URL_PREFIX = 'h' :: "ttps://github.com/sorbet/sorbet/tree/master/".toList := rfl
  have he : EXTERNAL_PREFIX = 'e' :: "xternal/com_stripe_ruby_typer/".toList := rfl
  rw [hu, he, List.cons_append]
  exact isPrefixOf_cons_ne _ _ _ _ (by decide)

lemma external_not_prefixOf_url_append (s : List Char) :
    EXTERNAL_PREFIX.isPrefixOf ( URL_PREFIX ++ s) = false := by
  have hu : URL_PREFIX = 'h' :: "ttps://github.com/sorbet/sorbet/tree/master/".toList := rfl
  have he : EXTERNAL_PREFIX = 'e' :: "xternal/com_stripe_ruby_typer/".toList := rfl
  rw [hu, he, List.cons_append]
  exact isPrefixOf_cons_ne _ _ _ _ (by decide)

/-- C9: `censor` strips the fixed sandbox prefix when the path starts with it
(first conjunct; the side condition only rules out the URL-prefixed remainder
case); when the original, unstripped path starts with the fixed URL-style
prefix, it strips that prefix (and a following sandbox prefix if present) and
re-wraps the result with the URL-style prefix (second and third conjuncts);
it re-wraps only when the original input actually began with the URL-style
prefix — otherwise the output is exactly the stripped result with nothing
prepended (fourth conjunct); and
`censor "external/com_stripe_ruby_typer/foo.rb" = "foo.rb"` (last conjunct). -/
theorem claim_C9_censor :
    (∀ s : List Char, URL_PREFIX.isPrefixOf s = false →
      censorFilePathForSnapshotTests ( EXTERNAL_PREFIX ++ s) = s)
    ∧ (∀ s : List Char,
        censorFilePathForSnapshotTests ( URL_PREFIX ++ ( EXTERNAL_PREFIX ++ s))
          = URL_PREFIX ++ s)
    ∧ (∀ s : List Char, EXTERNAL_PREFIX.isPrefixOf s = false →
        censorFilePathForSnapshotTests ( URL_PREFIX ++ s) = URL_PREFIX ++ s)
    ∧ (∀ p : List Char, URL_PREFIX.isPrefixOf p = false →
        censorFilePathForSnapshotTests p
          = (let r1 :=
               if EXTERNAL_PREFIX.isPrefixOf p then p.drop EXTERNAL_PREFIX.length else p
             if URL_PREFIX.isPrefixOf r1 then
               (let r2 := r1.drop URL_PREFIX.length
                if EXTERNAL_PREFIX.isPrefixOf r2 then r2.drop EXTERNAL_PREFIX.length else r2)
             else r1))
    ∧ censorFilePathForSnapshotTests "external/com_stripe_ruby_typer/foo.rb".toList
        = "foo.rb".toList := by
  refine ⟨?_, ?_, ?_, ?_, by decide⟩
  · intro s h
    simp only [censorFilePathForSnapshotTests]
    simp [isPrefixOf_append_self, url_not_prefixOf_external_append, h, List.drop_left]
  · intro s
    simp only [censorFilePathForSnapshotTests]
    simp [external_not_prefixOf_url_append, isPrefixOf_append_self, List.drop_left]
  · intro s h
    simp only [censorFilePathForSnapshotTests]
    simp [external_not_prefixOf_url_append, isPrefixOf_append_self, List.drop_left, h]
  · intro p h
    simp [censorFilePathForSnapshotTests, h]

/-- Witness for C9: the sandbox prefix is stripped from
`external/com_stripe_ruby_typer/foo.rb`, leaving `foo.rb`. -/
theorem claim_C9_witness :
    censorFilePathForSnapshotTests ( EXTERNAL_PREFIX ++ "foo.rb".toList)
      = "foo.rb".toList :=
  claim_C9_censor.1 "foo.rb".toList (by decide)

/-- C10: for every File whose sourceType permits reading the source,
`isStdlib()` returns whether `fileSigil` of the source text is `Stdlib`
(first conjunct) — equivalently, for a constructed File, whether
`originalSigil` is `Stdlib` (second conjunct) — and its result is unaffected
by a later override of `strictLevel`, because it re-scans the immutable
source rather than consulting `strictLevel` (third conjunct). -/
theorem claim_C10_isStdlib (path source : List Char) (ty : FileType) (epoch : Nat)
    (lvl : StrictLevel)
    (hts : ty ≠ FileType.TombStone) (hnr : ty ≠ FileType.NotYetRead) :
    File.isStdlib (File.construct path source ty epoch)
        = some (decide (fileSigil source = StrictLevel.Stdlib))
    ∧ File.isStdlib (File.construct path source ty epoch)
        = some (decide ((File.construct path source ty epoch).originalSigil
            = StrictLevel.Stdlib))
    ∧ File.isStdlib { File.construct path source ty epoch with strictLevel := lvl }
        = File.isStdlib (File.construct path source ty epoch) := by
  refine ⟨?_, ?_, ?_⟩
  · simp [File.isStdlib, File.source?, File.construct, hts, hnr]
  · simp [File.isStdlib, File.source?, File.construct, hts, hnr]
  · simp [File.isStdlib, File.source?, File.construct, hts, hnr]

/-- Witness for C10: a stdlib-marked source is recognized as stdlib, and an
override of `strictLevel` does not change the verdict. -/
theorem claim_C10_witness :
    File.isStdlib (File.construct "a.rbi".toList
        "# typed: __STDLIB_INTERNAL\n".toList FileType.Normal 0) = some true := by
  have h := (claim_C10_isStdlib "a.rbi".toList "# typed: __STDLIB_INTERNAL\n".toList
      FileType.Normal 0 StrictLevel.False (by decide) (by decide)).1
  rw [h]
  decide

end SorbetCore
